import Mathlib

/-!
Verification of the Book_HTHON RAG pipeline (backend/main.py, backend/agent.py,
backend/api.py, backend/test_retrieval.py).

The Python sources are shallowly embedded below.  External collaborators
(the tiktoken tokenizer, the Cohere embedding API, the Qdrant vector store,
the HTTP stack, the hosted language model) are modelled as explicit function
parameters ("oracles"): the embedded code is exactly the repository's own
glue logic around them.  Python loops are modelled with explicit fuel; a
`none`/`diverge` result means the fuel ran out, and theorems about
non-termination quantify over all fuel values.
-/

set_option maxRecDepth 100000

namespace BookHthon

/-- Python slice `l[s:e]` (step 1), including Python's negative-index and
clamping rules. -/
def pySlice {α : Type} (l : List α) (s e : Int) : List α :=
  let n : Int := l.length
  let lo := (if s < 0 then max (n + s) 0 else min s n).toNat
  let hi := (if e < 0 then max (n + e) 0 else min e n).toNat
  (l.drop lo).take (hi - lo)

/-- Characters removed by Python's `str.strip()` (ASCII whitespace). -/
def isPySpace (c : Char) : Bool :=
  c = ' ' || c = '\t' || c = '\n' || c = '\r' || c = '\x0b' || c = '\x0c'

/-- Python `s.strip()` on a character list. -/
def pyStripChars (s : List Char) : List Char :=
  ((s.dropWhile isPySpace).reverse.dropWhile isPySpace).reverse

/-- Python `s.startswith(pat)`: `pat` occurs at the beginning of `s`. -/
def pyStartsWith : List Char → List Char → Bool
  | _, [] => true
  | [], _ :: _ => false
  | a :: s, b :: p => a = b && pyStartsWith s p

/-- Python `s.find(pat)`: index of the first occurrence of the substring
`pat` in `s` (`none` models Python's `-1`). -/
def pyFind (pat : List Char) : List Char → Option Nat
  | [] => if pyStartsWith [] pat then some 0 else none
  | a :: t =>
      if pyStartsWith (a :: t) pat then some 0
      else (pyFind pat t).map (· + 1)

/-- Outcome of running a piece of Python code: a normal return, a raised
exception carrying its message, or divergence (an infinite loop; in the
fuel-indexed model, fuel exhaustion). -/
inductive PyOutcome (α : Type) where
  | ok : α → PyOutcome α
  | exn : String → PyOutcome α
  | diverge : PyOutcome α
deriving DecidableEq

/-- TextChunk dict built by `chunk_text` in backend/main.py.  `text_content`
holds the decoded token window (`encoder.decode(chunk_tokens)`); decoding is
external (tiktoken), so its result type `σ` and the decoder are parameters of
the embedding. -/
structure TextChunk (σ : Type) where
  chunk_id : Option Nat
  source_url : String
  page_title : String
  heading_context : String
  text_content : σ
  token_count : Nat
  position_in_page : Nat
deriving DecidableEq

/-- The token-window `while` loop of `chunk_text` (backend/main.py lines
196-213 and 260-277): while `start < len(tokens)`, emit
`tokens[start : start + max_tokens]` and advance `start` by
`max_tokens - overlap_tokens`.  `start` is an `Int` exactly like Python's.
Returns the produced chunks and the final value of the running `position`
counter; `none` means the fuel ran out before the loop exited. -/
def chunkWindows {τ σ : Type} (dec : List τ → σ) (url title heading : String)
    (tokens : List τ) (maxTokens overlapTokens : Nat) :
    Nat → Int → Nat → Option (List (TextChunk σ) × Nat)
  | 0, start, pos =>
      if start < (tokens.length : Int) then none else some ([], pos)
  | fuel + 1, start, pos =>
      if start < (tokens.length : Int) then
        let chunkTokens := pySlice tokens start (start + maxTokens)
        let c : TextChunk σ :=
          { chunk_id := none, source_url := url, page_title := title,
            heading_context := heading, text_content := dec chunkTokens,
            token_count := chunkTokens.length, position_in_page := pos }
        match chunkWindows dec url title heading tokens maxTokens overlapTokens
            fuel (start + (maxTokens : Int) - (overlapTokens : Int)) (pos + 1) with
        | none => none
        | some (rest, fin) => some (c :: rest, fin)
      else some ([], pos)

/-- Heading-hierarchy update of `chunk_text` (backend/main.py lines 222-231):
`h1` resets the hierarchy, `h2` becomes the sole element, is appended as the
second element, or replaces the existing second element; any other level
leaves the hierarchy unchanged. -/
def updateHierarchy (cur : List String) (level htext : String) : List String :=
  if level = "h1" then [htext]
  else if level = "h2" then
    match cur with
    | [] => [htext]
    | [a] => [a, htext]
    | a :: _ :: t => a :: htext :: t
  else cur

/-- A `sections` entry of `chunk_text` (backend/main.py lines 237-242). -/
structure PySection where
  position : Nat
  heading : String
  text : String
deriving DecidableEq

/-- Python's `" > ".join(current_headings)` (backend/main.py line 233). -/
def joinHeadings : List String → String
  | [] => ""
  | [a] => a
  | a :: b :: rest => a ++ " > " ++ joinHeadings (b :: rest)

/-- The section-collection loop of `chunk_text` (backend/main.py lines
221-242): update the hierarchy, join it with `" > "`, and record the
heading's first occurrence position in the text; headings not found in the
text are silently dropped. -/
def buildSectionsAux (textChars : List Char) :
    List (String × String) → List String → List PySection
  | [], _ => []
  | (level, htext) :: rest, cur =>
      let cur' := updateHierarchy cur level htext
      let ctx := joinHeadings cur'
      match pyFind htext.toList textChars with
      | some p =>
          { position := p, heading := ctx, text := htext } ::
            buildSectionsAux textChars rest cur'
      | none => buildSectionsAux textChars rest cur'

/-- Stable insertion used to model Python's stable `sections.sort(key=position)`
(backend/main.py line 245): an element is inserted after all entries whose key
is ≤ its own, so equal keys keep their original order. -/
def insertByPos (x : PySection) : List PySection → List PySection
  | [] => [x]
  | y :: ys =>
      if y.position ≤ x.position then y :: insertByPos x ys else x :: y :: ys

/-- Python's `sections.sort(key=lambda x: x['position'])` (stable sort). -/
def sortByPos (l : List PySection) : List PySection :=
  l.foldl (fun acc x => insertByPos x acc) []

/-- The per-section loop of `chunk_text` (backend/main.py lines 248-278):
section text runs from the end of the heading occurrence to the next
section's position (or the end of the page text), is stripped, empty
sections are skipped, and the token window slides inside each section with
`start` reset to 0 — while the `position` counter is threaded through
unchanged across sections. -/
def chunkSections {τ σ : Type} (enc : String → List τ) (dec : List τ → σ)
    (url title : String) (maxTokens overlapTokens : Nat) (textChars : List Char) :
    List PySection → Nat → Option (List (TextChunk σ))
  | [], _ => some []
  | s :: rest, pos =>
      let startPos : Nat := s.position + s.text.length
      let endPos : Nat :=
        match rest with
        | [] => textChars.length
        | s2 :: _ => s2.position
      let sectionText := pyStripChars (pySlice textChars (startPos : Int) (endPos : Int))
      if sectionText = [] then
        chunkSections enc dec url title maxTokens overlapTokens textChars rest pos
      else
        let tokens := enc (String.mk sectionText)
        match chunkWindows dec url title s.heading tokens maxTokens overlapTokens
            (tokens.length + 1) 0 pos with
        | none => none
        | some (cs, fin) =>
            match chunkSections enc dec url title maxTokens overlapTokens textChars rest fin with
            | none => none
            | some cs2 => some (cs ++ cs2)

/-- `chunk_text` from backend/main.py (lines 158-281).  The tiktoken encoder
`encoder.encode` / `encoder.decode` pair is external; it is passed in as the
parameters `enc`/`dec` (token type `τ`, decoded type `σ`). -/
def chunk_text {τ σ : Type} (enc : String → List τ) (dec : List τ → σ)
    (text : String) (headings : List (String × String)) (url title : String)
    (maxTokens overlapTokens : Nat) : PyOutcome (List (TextChunk σ)) :=
  if pyStripChars text.toList = [] then .exn "Text content is empty"
  else if headings.isEmpty then
    let tokens := enc text
    match chunkWindows dec url title "No heading" tokens maxTokens overlapTokens
        (tokens.length + 1) 0 0 with
    | none => .diverge
    | some (cs, _) => .ok cs
  else
    let sections := sortByPos (buildSectionsAux text.toList headings [])
    match chunkSections enc dec url title maxTokens overlapTokens text.toList sections 0 with
    | none => .diverge
    | some cs => .ok cs

/-- Closed form of one chunk emitted by the token-window loop: the window of
`maxTokens` tokens beginning at token index `start`. -/
def windowChunk {τ σ : Type} (dec : List τ → σ) (url title heading : String)
    (tokens : List τ) (maxTokens start pos : Nat) : TextChunk σ :=
  { chunk_id := none, source_url := url, page_title := title,
    heading_context := heading,
    text_content := dec ((tokens.drop start).take maxTokens),
    token_count := ((tokens.drop start).take maxTokens).length,
    position_in_page := pos }

/-- Number of windows the loop emits over `len` tokens with advance `step`:
`⌈len / step⌉`. -/
def numWindows (len step : Nat) : Nat := (len + step - 1) / step

/-- Chunks carrying sequential positions starting at `pos`, each within the
token bound. -/
def SeqPos {σ : Type} (maxTokens : Nat) (cs : List (TextChunk σ)) (pos : Nat) : Prop :=
  ∀ i (hi : i < cs.length),
    (cs[i]).position_in_page = pos + i ∧ (cs[i]).token_count ≤ maxTokens

/-- Concrete tokenizer used to instantiate the abstract encoder in examples:
one token per character (token `i` for position `i`). -/
def encIota (s : String) : List Nat := List.range s.length

/-- A 1000-character (hence, under `encIota`, 1000-token) page text. -/
def text1000 : String := String.mk (List.replicate 1000 'a')

/-- A point returned by the Qdrant `query_points` call (backend/agent.py
lines 202-219).  The similarity `score` type `ε` is abstract (floats are
external); payload fields are optional, matching `payload.get(..., default)`. -/
structure QdrantPoint (ε : Type) where
  score : ε
  url : Option String
  title : Option String
  heading : Option String
  text : Option String

/-- RetrievalResult dict built by `search_qdrant` (backend/agent.py lines
210-219). -/
structure RetrievalResult (ε : Type) where
  rank : Nat
  score : ε
  url : String
  title : String
  heading : String
  text : String

/-- `generate_query_embedding` from backend/agent.py (lines 161-183): calls
the external Cohere client (oracle `embedApi`, embedding type `β`) and wraps
any failure in a new exception message. -/
def generate_query_embedding {β : Type} (embedApi : String → Except String β)
    (query_text : String) : Except String β :=
  match embedApi query_text with
  | .ok v => .ok v
  | .error e => .error ("Cohere embedding generation failed: " ++ e)

/-- `search_qdrant` from backend/agent.py (lines 186-224): queries the
external vector store (oracle `queryPoints`), converts each point to a
RetrievalResult with 1-based rank and `"N/A"`/`""` payload defaults, and
wraps any failure in a new exception message. -/
def search_qdrant {β ε : Type}
    (queryPoints : β → Nat → Except String (List (QdrantPoint ε)))
    (query_embedding : β) (k : Nat) : Except String (List (RetrievalResult ε)) :=
  match queryPoints query_embedding k with
  | .ok pts => .ok (pts.enum.map (fun p =>
      { rank := p.1 + 1, score := p.2.score,
        url := p.2.url.getD "N/A", title := p.2.title.getD "N/A",
        heading := p.2.heading.getD "N/A", text := p.2.text.getD "" }))
  | .error e => .error ("Qdrant search failed: " ++ e)

/-- `retrieve_textbook_content` from backend/agent.py (lines 227-258): clamps
`k` to `[1, 10]`, then embeds and searches inside one `try`; any failure is
caught and returned as `([], some message)`, success as `(results, none)`. -/
def retrieve_textbook_content {β ε : Type} (embedApi : String → Except String β)
    (queryPoints : β → Nat → Except String (List (QdrantPoint ε)))
    (query : String) (k : Int) : List (RetrievalResult ε) × Option String :=
  let k2 := max 1 (min k 10)
  match generate_query_embedding embedApi query with
  | .error e => ([], some ("Retrieval failed: " ++ e))
  | .ok embedding =>
      match search_qdrant queryPoints embedding k2.toNat with
      | .error e => ([], some ("Retrieval failed: " ++ e))
      | .ok results => (results, none)

/-- Citation model of backend/api.py (lines 66-70). -/
structure Citation where
  title : String
  url : String
deriving DecidableEq

/-- One attempt of the regex `\[([^\]]+)\]\(([^\)]+)\)` of `extract_citations`
(backend/api.py line 475) at a position just after an opening bracket:
a non-empty run of non-`]` characters, `](`, a non-empty run of non-`)`
characters, `)`.  Returns the two capture groups and the rest of the input. -/
def linkMatchAfterBracket (s : List Char) :
    Option (List Char × List Char × List Char) :=
  let t := s.takeWhile (fun c => c ≠ ']')
  let r1 := s.dropWhile (fun c => c ≠ ']')
  if t = [] then none
  else
    match r1 with
    | ']' :: '(' :: r2 =>
        let u := r2.takeWhile (fun c => c ≠ ')')
        let r3 := r2.dropWhile (fun c => c ≠ ')')
        if u = [] then none
        else
          match r3 with
          | ')' :: rest => some (t, u, rest)
          | _ => none
    | _ => none

/-- Python's `re.findall(r'\[([^\]]+)\]\(([^\)]+)\)', s)`: scan left to
right, attempt a match at each `[`, and continue after each match
(non-overlapping).  Fuel is the input length (each step consumes at least
one character). -/
def findMarkdownLinks : Nat → List Char → List (String × String)
  | 0, _ => []
  | _ + 1, [] => []
  | fuel + 1, c :: rest =>
      if c = '[' then
        match linkMatchAfterBracket rest with
        | some (t, u, rest2) =>
            (String.mk t, String.mk u) :: findMarkdownLinks fuel rest2
        | none => findMarkdownLinks fuel rest
      else findMarkdownLinks fuel rest

/-- The dedup-by-URL loop of `extract_citations` (backend/api.py lines
479-484): keep a match only if its URL was not seen before. -/
def dedupByUrl : List (String × String) → List String → List Citation
  | [], _ => []
  | (t, u) :: rest, seen =>
      if u ∈ seen then dedupByUrl rest seen
      else { title := t, url := u } :: dedupByUrl rest (u :: seen)

/-- `extract_citations` from backend/api.py (lines 459-485): find all
Markdown links, deduplicate by URL keeping the first occurrence, cap at 10. -/
def extract_citations (agent_response : String) : List Citation :=
  let found := findMarkdownLinks agent_response.toList.length agent_response.toList
  (dedupByUrl found []).take 10

/-- ChatRequest schema of backend/api.py (lines 49-64): `message` of length
1 to 2000, optional `context` of length ≤ 5000.  Modelled from FastAPI's
documented contract: a request violating the Pydantic model is rejected with
HTTP 422 before the endpoint body runs. -/
def validChatRequest (message : String) (context : Option String) : Bool :=
  1 ≤ message.length && message.length ≤ 2000 &&
    (match context with
     | none => true
     | some c => c.length ≤ 5000)

/-- ErrorResponse model of backend/api.py (lines 87-92). -/
structure ErrorBody where
  error : String
  message : String
  retryable : Bool
  error_id : Option String
deriving DecidableEq

/-- Observable outcome of a `POST /chat` request: rejected by request-model
validation (FastAPI's 422), an `HTTPException` carrying an ErrorResponse
body, or a 200 ChatResponse. -/
inductive ChatOutcome where
  | schemaReject (status : Nat)
  | errorResp (status : Nat) (body : ErrorBody)
  | success (status : Nat) (response : String) (sources : List Citation)
deriving DecidableEq

/-- Python `s.lower()`. -/
def pyLower (s : String) : String := String.mk (s.toList.map Char.toLower)

/-- Python `pat in s` (substring test). -/
def containsSub (s pat : String) : Bool := (pyFind pat.toList s.toList).isSome

/-- Keywords that route an exception to 503 (backend/api.py line 293). -/
def retrievalKeywords : List String :=
  ["qdrant", "cohere", "connection", "timeout", "unavailable"]

/-- `chat_endpoint` from backend/api.py (lines 242-319), composed with the
framework's request validation.  `runAgent` is the external agent run
(`Runner.run`), `freshId` the external `uuid.uuid4()` value. -/
def chat_endpoint (runAgent : String → Except String String) (freshId : String)
    (message : String) (context : Option String) : ChatOutcome :=
  if ¬ validChatRequest message context then .schemaReject 422
  else if pyStripChars message.toList = [] then
    .errorResp 400
      { error := "validation_error",
        message := "Message field cannot be empty or whitespace only",
        retryable := false, error_id := none }
  else
    let stripped := String.mk (pyStripChars message.toList)
    let query :=
      match context with
      | some c =>
          if c ≠ "" then stripped ++ "\n\nContext: " ++ String.mk (pyStripChars c.toList)
          else stripped
      | none => stripped
    match runAgent query with
    | .ok out => .success 200 out (extract_citations out)
    | .error e =>
        if retrievalKeywords.any (fun kw => containsSub (pyLower e) kw) then
          .errorResp 503
            { error := "service_unavailable",
              message := "Unable to connect to the retrieval system. Please try again in a moment.",
              retryable := true, error_id := some freshId }
        else
          .errorResp 500
            { error := "server_error",
              message := "An unexpected error occurred. Please try again or contact support if the problem persists.",
              retryable := false, error_id := some freshId }

/-- `calculate_precision_at_k` from backend/test_retrieval.py (lines
238-256): `len(set(retrieved_urls[:k]) & set(relevant_urls)) / k` if `k > 0`
else `0.0`, in exact rational arithmetic. -/
def calculate_precision_at_k (retrieved_urls relevant_urls : List String)
    (k : Int) : ℚ :=
  let relevant_in_topk :=
    ((pySlice retrieved_urls 0 k).dedup.filter (fun u => u ∈ relevant_urls)).length
  if 0 < k then (relevant_in_topk : ℚ) / (k : ℚ) else 0

/-- `generate_embeddings` from backend/main.py (lines 288-326): rejects
batches over 96, short-circuits empty batches, calls the external Cohere
client (oracle `embedApi`, vector element type `ε`), and checks that the
FIRST returned vector has exactly 1024 dimensions. -/
def generate_embeddings {σ ε : Type}
    (embedApi : List σ → Except String (List (List ε)))
    (chunks : List (TextChunk σ)) : Except String (List (List ε)) :=
  if 96 < chunks.length then
    .error ("Batch size " ++ toString chunks.length ++ " exceeds maximum of 96")
  else if chunks.length = 0 then .ok []
  else
    match embedApi (chunks.map (fun c => c.text_content)) with
    | .error e => .error e
    | .ok embeddings =>
        match embeddings with
        | [] => .ok []
        | e0 :: rest =>
            if e0.length ≠ 1024 then
              .error ("Expected 1024 dimensions, got " ++ toString e0.length)
            else .ok (e0 :: rest)

/-- Python `s.split(c)[0]`: the part of `s` before the first `c`. -/
def pySplitHead (c : Char) (s : List Char) : List Char :=
  s.takeWhile (fun x => x ≠ c)

/-- `absolute_url.split('#')[0].split('?')[0]` (backend/main.py line 92). -/
def cleanUrl (s : String) : String :=
  String.mk (pySplitHead '?' (pySplitHead '#' s.toList))

/-- Lexicographic comparison by code point — Python's `<` on `str`. -/
def charListLt : List Char → List Char → Bool
  | [], [] => false
  | [], _ :: _ => true
  | _ :: _, [] => false
  | a :: s, b :: t => if a < b then true else if b < a then false else charListLt s t

/-- Python's `<` on strings. -/
def strLt (a b : String) : Bool := charListLt a.toList b.toList

/-- Insertion into a strictly `strLt`-sorted list, dropping duplicates. -/
def insertSortedDedup (x : String) : List String → List String
  | [] => [x]
  | y :: ys =>
      if x = y then y :: ys
      else if strLt x y then x :: y :: ys
      else y :: insertSortedDedup x ys

/-- Python's `sorted(set(l))`: the strictly sorted list of the distinct
elements of `l`. -/
def pySortedSet (l : List String) : List String :=
  l.foldl (fun acc x => insertSortedDedup x acc) []

/-- The link-crawl worklist loop of `discover_urls` (backend/main.py lines
70-99).  `fetchLinks` is the external HTTP + BeautifulSoup + `urljoin`
oracle: for a URL it yields `none` when the fetch raises, otherwise the
resolved absolute link targets of the page.  Python pops from a `set` in
unspecified order; the model fixes one admissible order (front of a
worklist).  Overall `none` = fuel exhausted before the worklist emptied. -/
def crawlLoop (fetchLinks : String → Option (List String)) (base_url : String) :
    Nat → List String → List String → List String → Option (List String)
  | 0, toVisit, _, urls =>
      match toVisit with
      | [] => some (pySortedSet urls)
      | _ :: _ => none
  | fuel + 1, toVisit, visited, urls =>
      match toVisit with
      | [] => some (pySortedSet urls)
      | u :: rest =>
          if u ∈ visited then crawlLoop fetchLinks base_url fuel rest visited urls
          else
            let visited2 := u :: visited
            match fetchLinks u with
            | none => crawlLoop fetchLinks base_url fuel rest visited2 urls
            | some links =>
                let newTargets := links.filterMap (fun l =>
                  if pyStartsWith l.toList base_url.toList && ¬ (l ∈ visited2) then
                    some (cleanUrl l)
                  else none)
                crawlLoop fetchLinks base_url fuel (rest ++ newTargets) visited2 (urls ++ [u])

/-- `discover_urls` from backend/main.py (lines 31-99).  `sitemapLocs`
models the sitemap fetch + parse: `none` when it raises, otherwise the
stripped `<loc>` texts.  The sitemap path is used when it yields at least
one URL with the `base_url` prefix; otherwise the crawl fallback runs. -/
def discover_urls (sitemapLocs : Option (List String))
    (fetchLinks : String → Option (List String)) (fuel : Nat)
    (base_url : String) : PyOutcome (List String) :=
  if ¬ (pyStartsWith base_url.toList "http://".toList ||
        pyStartsWith base_url.toList "https://".toList) then
    .exn ("Invalid base_url: " ++ base_url ++ ". Must start with http:// or https://")
  else
    let fromSitemap :=
      match sitemapLocs with
      | none => []
      | some locs => locs.filter (fun u => pyStartsWith u.toList base_url.toList)
    if fromSitemap ≠ [] then .ok (pySortedSet fromSitemap)
    else
      match crawlLoop fetchLinks base_url fuel [base_url] [] [] with
      | none => .diverge
      | some urls => .ok urls

/-- Base URLs containing no `#` and no `?` (every real site root). -/
def BaseClean (b : String) : Prop := ∀ c ∈ b.toList, c ≠ '#' ∧ c ≠ '?'

/-- Concrete link oracle for the C7 counterexample: the root of the site
`http://a?b` links to `http://a?b#x`, and `http://a` exists with no links. -/
def c7Fetch : String → Option (List String) := fun u =>
  if u = "http://a?b" then some ["http://a?b#x"]
  else if u = "http://a" then some []
  else none

theorem pySlice_natCast {α : Type} (l : List α) (a b : Nat) :
    pySlice l (a : Int) (b : Int) = (l.drop a).take (b - a) := by
  unfold pySlice
  have ha : ¬ ((a : Int) < 0) := by omega
  have hb : ¬ ((b : Int) < 0) := by omega
  simp only [if_neg ha, if_neg hb]
  have hminA : (min (a : Int) (l.length : Int)).toNat = min a l.length := by
    rcases le_total a l.length with h | h
    · simp [min_eq_left h, min_eq_left (by exact_mod_cast h : (a : Int) ≤ (l.length : Int))]
    · simp [min_eq_right h, min_eq_right (by exact_mod_cast h : (l.length : Int) ≤ (a : Int))]
  have hminB : (min (b : Int) (l.length : Int)).toNat = min b l.length := by
    rcases le_total b l.length with h | h
    · simp [min_eq_left h, min_eq_left (by exact_mod_cast h : (b : Int) ≤ (l.length : Int))]
    · simp [min_eq_right h, min_eq_right (by exact_mod_cast h : (l.length : Int) ≤ (b : Int))]
  rw [hminA, hminB]
  rcases le_or_lt l.length a with h | h
  · rw [min_eq_right h, List.drop_length]
    rw [List.drop_eq_nil_of_le h]
    simp
  · rw [min_eq_left h.le]
    rcases le_or_lt b l.length with h2 | h2
    · rw [min_eq_left h2]
    · rw [min_eq_right h2.le]
      have hlen : (l.drop a).length = l.length - a := List.length_drop a l
      rw [List.take_of_length_le (by omega), List.take_of_length_le (by omega)]

theorem lt_numWindows_iff {step : Nat} (hstep : 0 < step) (len j : Nat) :
    j < numWindows len step ↔ j * step < len := by
  unfold numWindows
  rw [Nat.lt_iff_add_one_le, Nat.le_div_iff_mul_le hstep]
  have h := (j + 1) * step
  constructor
  · intro h
    have : (j + 1) * step = j * step + step := by ring
    omega
  · intro h
    have : (j + 1) * step = j * step + step := by ring
    omega

theorem le_numWindows_mul {step : Nat} (hstep : 0 < step) (len : Nat) :
    len ≤ numWindows len step * step := by
  unfold numWindows
  have h := Nat.div_add_mod (len + step - 1) step
  have hm : (len + step - 1) % step < step := Nat.mod_lt _ hstep
  have hcomm : step * ((len + step - 1) / step) = (len + step - 1) / step * step := by ring
  omega

theorem numWindows_le_len {step : Nat} (hstep : 0 < step) (len : Nat) :
    numWindows len step ≤ len := by
  unfold numWindows
  rw [Nat.div_le_iff_le_mul_add_pred hstep]
  have : len ≤ step * len := Nat.le_mul_of_pos_left len hstep
  omega

theorem chunkWindows_closed {τ σ : Type} (dec : List τ → σ) (url title heading : String)
    (tokens : List τ) (maxTokens overlapTokens : Nat)
    (hlt : overlapTokens < maxTokens) :
    ∀ fuel j pos,
      numWindows tokens.length (maxTokens - overlapTokens) - j ≤ fuel →
      chunkWindows dec url title heading tokens maxTokens overlapTokens fuel
          ((j * (maxTokens - overlapTokens) : Nat) : Int) pos =
        some
          ((List.range (numWindows tokens.length (maxTokens - overlapTokens) - j)).map
              (fun i => windowChunk dec url title heading tokens maxTokens
                ((j + i) * (maxTokens - overlapTokens)) (pos + i)),
            pos + (numWindows tokens.length (maxTokens - overlapTokens) - j)) := by
  have hstep : 0 < maxTokens - overlapTokens := by omega
  intro fuel
  induction fuel with
  | zero =>
      intro j pos hfuel
      have hj : numWindows tokens.length (maxTokens - overlapTokens) ≤ j := by omega
      have hlen : tokens.length ≤ j * (maxTokens - overlapTokens) := by
        calc tokens.length
            ≤ numWindows tokens.length (maxTokens - overlapTokens) * (maxTokens - overlapTokens) :=
              le_numWindows_mul hstep tokens.length
          _ ≤ j * (maxTokens - overlapTokens) := Nat.mul_le_mul_right _ hj
      have hguard : ¬ (((j * (maxTokens - overlapTokens) : Nat) : Int) < (tokens.length : Int)) := by
        push_cast
        push_cast at hlen
        omega
      simp only [chunkWindows, if_neg hguard]
      have hz : numWindows tokens.length (maxTokens - overlapTokens) - j = 0 := by omega
      simp [hz]
  | succ n ih =>
      intro j pos hfuel
      by_cases hj : j * (maxTokens - overlapTokens) < tokens.length
      · have hjW : j < numWindows tokens.length (maxTokens - overlapTokens) :=
          (lt_numWindows_iff hstep tokens.length j).mpr hj
        have hguard : (((j * (maxTokens - overlapTokens) : Nat) : Int) < (tokens.length : Int)) := by
          exact_mod_cast hj
        have harg : ((j * (maxTokens - overlapTokens) : Nat) : Int) + (maxTokens : Int)
            - (overlapTokens : Int) = (((j + 1) * (maxTokens - overlapTokens) : Nat) : Int) := by
          push_cast [Nat.cast_sub hlt.le]
          ring
        have hslice : pySlice tokens ((j * (maxTokens - overlapTokens) : Nat) : Int)
            (((j * (maxTokens - overlapTokens) : Nat) : Int) + (maxTokens : Int)) =
            (tokens.drop (j * (maxTokens - overlapTokens))).take maxTokens := by
          have : ((j * (maxTokens - overlapTokens) : Nat) : Int) + (maxTokens : Int)
              = ((j * (maxTokens - overlapTokens) + maxTokens : Nat) : Int) := by push_cast; ring
          rw [this, pySlice_natCast]
          congr 1
          omega
        have hrec := ih (j + 1) (pos + 1) (by omega)
        simp only [chunkWindows, if_pos hguard, hslice, harg, hrec]
        have hsplit : numWindows tokens.length (maxTokens - overlapTokens) - j =
            (numWindows tokens.length (maxTokens - overlapTokens) - (j + 1)) + 1 := by omega
        rw [hsplit, List.range_succ_eq_map, List.map_cons, List.map_map]
        refine congrArg some (Prod.ext ?_ ?_)
        · refine congrArg₂ List.cons ?_ ?_
          · simp [windowChunk]
          · apply List.map_congr_left
            intro i _
            simp only [Function.comp_apply, Nat.succ_eq_add_one]
            have h1 : j + 1 + i = j + (i + 1) := by omega
            have h2 : pos + 1 + i = pos + (i + 1) := by omega
            rw [h1, h2]
        · simp
          omega
      · have hjW : numWindows tokens.length (maxTokens - overlapTokens) ≤ j := by
          by_contra hc
          exact hj ((lt_numWindows_iff hstep tokens.length j).mp (by omega))
        have hguard : ¬ (((j * (maxTokens - overlapTokens) : Nat) : Int) < (tokens.length : Int)) := by
          push_cast
          omega
        simp only [chunkWindows, if_neg hguard]
        have hz : numWindows tokens.length (maxTokens - overlapTokens) - j = 0 := by omega
        simp [hz]

theorem chunk_text_noHeadings_closed {τ σ : Type} (enc : String → List τ) (dec : List τ → σ)
    (text url title : String) (maxTokens overlapTokens : Nat)
    (hlt : overlapTokens < maxTokens) (htext : ¬ pyStripChars text.toList = []) :
    chunk_text enc dec text [] url title maxTokens overlapTokens =
      .ok ((List.range (numWindows (enc text).length (maxTokens - overlapTokens))).map
        (fun i => windowChunk dec url title "No heading" (enc text) maxTokens
          (i * (maxTokens - overlapTokens)) i)) := by
  have hstep : 0 < maxTokens - overlapTokens := by omega
  have hfuel : numWindows (enc text).length (maxTokens - overlapTokens) - 0 ≤
      (enc text).length + 1 := by
    have := numWindows_le_len hstep (enc text).length
    omega
  have h := chunkWindows_closed dec url title "No heading" (enc text) maxTokens overlapTokens
    hlt ((enc text).length + 1) 0 0 hfuel
  rw [Nat.zero_mul, Nat.cast_zero] at h
  unfold chunk_text
  rw [if_neg htext]
  simp only [List.isEmpty_nil, if_pos]
  rw [h]
  simp

/-- Token windows never exceed `maxTokens` tokens. -/
theorem windowChunk_token_count_le {τ σ : Type} (dec : List τ → σ)
    (url title heading : String) (tokens : List τ) (maxTokens start pos : Nat) :
    (windowChunk dec url title heading tokens maxTokens start pos).token_count ≤ maxTokens := by
  simp [windowChunk]

/-- Helper for C2: with `max_tokens ≤ overlap_tokens` and a non-empty token
list, the window loop's guard stays true forever — `start` never increases —
so the loop returns for no amount of fuel. -/
theorem chunkWindows_none_of_no_advance {τ σ : Type} (dec : List τ → σ)
    (url title heading : String) (tokens : List τ) (maxTokens overlapTokens : Nat)
    (hle : maxTokens ≤ overlapTokens) (hne : tokens ≠ []) :
    ∀ (fuel : Nat) (start : Int) (pos : Nat), start ≤ 0 →
      chunkWindows dec url title heading tokens maxTokens overlapTokens fuel start pos = none := by
  have hlen : 0 < tokens.length := List.length_pos.mpr hne
  intro fuel
  induction fuel with
  | zero =>
      intro start pos hstart
      have hguard : start < (tokens.length : Int) := by omega
      simp only [chunkWindows, if_pos hguard]
  | succ n ih =>
      intro start pos hstart
      have hguard : start < (tokens.length : Int) := by omega
      simp only [chunkWindows, if_pos hguard]
      rw [ih (start + (maxTokens : Int) - (overlapTokens : Int)) (pos + 1) (by omega)]

/-- C1: chunking non-empty text with `headings = []` and
`overlap_tokens < max_tokens` emits exactly the token windows starting at
`i * (max_tokens - overlap_tokens)` for `i = 0, 1, …` (so every chunk's
`token_count` is at most `max_tokens`, and consecutive chunks' window starts
differ by exactly `max_tokens - overlap_tokens`); in particular a 1000-token
page with `max_tokens = 512`, `overlap_tokens = 50` yields exactly 3 chunks
with `position_in_page` 0, 1, 2 covering token windows `[0,512)`, `[462,974)`
and `[924,1000)`. -/
theorem c1_chunk_window_layout :
    (∀ (τ σ : Type) (enc : String → List τ) (dec : List τ → σ)
        (text url title : String) (maxTokens overlapTokens : Nat),
        overlapTokens < maxTokens → ¬ pyStripChars text.toList = [] →
        chunk_text enc dec text [] url title maxTokens overlapTokens =
          .ok ((List.range (numWindows (enc text).length (maxTokens - overlapTokens))).map
            (fun i => windowChunk dec url title "No heading" (enc text) maxTokens
              (i * (maxTokens - overlapTokens)) i)) ∧
        (∀ start pos, (windowChunk dec url title "No heading" (enc text) maxTokens
            start pos).token_count ≤ maxTokens)) ∧
    chunk_text encIota (fun l : List Nat => l) text1000 [] "u" "t" 512 50 =
      .ok [⟨none, "u", "t", "No heading", (List.range 1000).take 512, 512, 0⟩,
           ⟨none, "u", "t", "No heading", ((List.range 1000).drop 462).take 512, 512, 1⟩,
           ⟨none, "u", "t", "No heading", ((List.range 1000).drop 924).take 512, 76, 2⟩] := by
  constructor
  · intro τ σ enc dec text url title maxTokens overlapTokens hlt htext
    exact ⟨chunk_text_noHeadings_closed enc dec text url title maxTokens overlapTokens hlt htext,
      fun start pos => windowChunk_token_count_le dec url title "No heading" (enc text)
        maxTokens start pos⟩
  · decide

/-- Witness for C1 at a concrete input. -/
theorem c1_chunk_window_layout_witness :
    chunk_text encIota (fun l : List Nat => l) text1000 [] "u" "t" 512 50 =
      .ok ((List.range (numWindows (encIota text1000).length (512 - 50))).map
        (fun i => windowChunk (fun l : List Nat => l) "u" "t" "No heading"
          (encIota text1000) 512 (i * (512 - 50)) i)) :=
  (c1_chunk_window_layout.1 Nat (List Nat) encIota (fun l => l) text1000 "u" "t" 512 50
    (by omega) (by decide)).1

/-- C2 (code bug): `chunk_text` performs no `overlap_tokens >= max_tokens`
check at all.  With such a configuration and a non-empty token list the
window loop's `start` never advances past 0, so the loop never terminates
(`none` for every fuel) and the call diverges instead of raising the
`InvalidWindowError` the specification requires. -/
theorem c2_overlap_ge_max_stalls :
    (∀ (τ σ : Type) (dec : List τ → σ) (url title heading : String) (tokens : List τ)
        (maxTokens overlapTokens : Nat),
        maxTokens ≤ overlapTokens → tokens ≠ [] →
        ∀ (fuel : Nat) (start : Int) (pos : Nat), start ≤ 0 →
          chunkWindows dec url title heading tokens maxTokens overlapTokens fuel start pos
            = none) ∧
    (∀ (τ σ : Type) (enc : String → List τ) (dec : List τ → σ)
        (text url title : String) (maxTokens overlapTokens : Nat),
        maxTokens ≤ overlapTokens → ¬ pyStripChars text.toList = [] → enc text ≠ [] →
        chunk_text enc dec text [] url title maxTokens overlapTokens = .diverge) := by
  constructor
  · intro τ σ dec url title heading tokens maxTokens overlapTokens hle hne
    exact chunkWindows_none_of_no_advance dec url title heading tokens maxTokens
      overlapTokens hle hne
  · intro τ σ enc dec text url title maxTokens overlapTokens hle htext hne
    unfold chunk_text
    rw [if_neg htext]
    simp only [List.isEmpty_nil, if_pos]
    rw [chunkWindows_none_of_no_advance dec url title "No heading" (enc text) maxTokens
      overlapTokens hle hne ((enc text).length + 1) 0 0 (by omega)]

/-- Witness for C2 at a concrete input: `overlap_tokens = max_tokens = 512`
on a 3-token text makes `chunk_text` diverge. -/
theorem c2_overlap_ge_max_stalls_witness :
    chunk_text encIota (fun l : List Nat => l) "abc" [] "u" "t" 512 512 = .diverge :=
  c2_overlap_ge_max_stalls.2 Nat (List Nat) encIota (fun l => l) "abc" "u" "t" 512 512
    (by omega) (by decide) (by decide)

/-- Specialisation of `chunkWindows_closed` to the call made by the chunker:
fuel `len + 1`, `start = 0`, arbitrary incoming `position` counter. -/
theorem chunkWindows_run_zero {τ σ : Type} (dec : List τ → σ) (url title heading : String)
    (tokens : List τ) (maxTokens overlapTokens : Nat)
    (hlt : overlapTokens < maxTokens) (pos : Nat) :
    chunkWindows dec url title heading tokens maxTokens overlapTokens
        (tokens.length + 1) 0 pos =
      some ((List.range (numWindows tokens.length (maxTokens - overlapTokens))).map
          (fun i => windowChunk dec url title heading tokens maxTokens
            (i * (maxTokens - overlapTokens)) (pos + i)),
        pos + numWindows tokens.length (maxTokens - overlapTokens)) := by
  have hstep : 0 < maxTokens - overlapTokens := by omega
  have hfuel : numWindows tokens.length (maxTokens - overlapTokens) - 0 ≤ tokens.length + 1 := by
    have := numWindows_le_len hstep tokens.length
    omega
  have h := chunkWindows_closed dec url title heading tokens maxTokens overlapTokens hlt
    (tokens.length + 1) 0 pos hfuel
  rw [Nat.zero_mul, Nat.cast_zero] at h
  simpa using h

theorem seqPos_append {σ : Type} (maxTokens : Nat) (L1 L2 : List (TextChunk σ)) (pos : Nat)
    (hL1 : SeqPos maxTokens L1 pos) (hL2 : SeqPos maxTokens L2 (pos + L1.length)) :
    SeqPos maxTokens (L1 ++ L2) pos := by
  intro i hi
  by_cases hsplit : i < L1.length
  · rw [List.getElem_append_left hsplit]
    exact hL1 i hsplit
  · have hle : L1.length ≤ i := Nat.le_of_not_lt hsplit
    rw [List.getElem_append_right hle]
    have hlen2 : i - L1.length < L2.length := by
      simp only [List.length_append] at hi
      omega
    refine ⟨?_, (hL2 _ hlen2).2⟩
    rw [(hL2 _ hlen2).1]
    omega

theorem seqPos_windowMap {τ σ : Type} (dec : List τ → σ) (url title heading : String)
    (tokens : List τ) (maxTokens step n pos : Nat) :
    SeqPos maxTokens
      ((List.range n).map
        (fun i => windowChunk dec url title heading tokens maxTokens (i * step) (pos + i)))
      pos := by
  intro i hi
  simp only [List.length_map, List.length_range] at hi
  simp only [List.getElem_map, List.getElem_range]
  exact ⟨rfl, windowChunk_token_count_le dec url title heading tokens maxTokens _ _⟩

/-- In the heading branch, the running `position` counter is threaded through
the sections without being reset: chunk `i` of the output receives
`position_in_page = pos + i`, whatever section it falls in.  Every chunk also
respects the `maxTokens` bound. -/
theorem chunkSections_positions {τ σ : Type} (enc : String → List τ) (dec : List τ → σ)
    (url title : String) (maxTokens overlapTokens : Nat) (textChars : List Char)
    (hlt : overlapTokens < maxTokens) :
    ∀ (sections : List PySection) (pos : Nat) (cs : List (TextChunk σ)),
      chunkSections enc dec url title maxTokens overlapTokens textChars sections pos = some cs →
      SeqPos maxTokens cs pos := by
  intro sections
  induction sections with
  | nil =>
      intro pos cs hcs
      simp only [chunkSections, Option.some.injEq] at hcs
      subst hcs
      intro i hi
      simp at hi
  | cons s rest ih =>
      intro pos cs hcs
      simp only [chunkSections] at hcs
      split at hcs
      · exact ih pos cs hcs
      · rw [chunkWindows_run_zero dec url title s.heading _ maxTokens overlapTokens hlt pos]
          at hcs
        simp only [] at hcs
        split at hcs
        · cases hcs
        · simp only [Option.some.injEq] at hcs
          subst hcs
          refine seqPos_append maxTokens _ _ pos (seqPos_windowMap _ _ _ _ _ _ _ _ _) ?_
          rename_i cs2 heq
          have h2 := ih _ cs2 heq
          simpa [SeqPos] using h2

/-- C3 counterexample: with two H1 headings the page splits into two
sections, each producing one chunk — but the first chunk of the second
section (heading context `"B"`) has `position_in_page = 1`, not `0`: the
per-section chunk position counter is not restarted at 0 for every section. -/
theorem c3_position_not_reset_counterexample :
    chunk_text encIota (fun l : List Nat => l) "A p B q" [("h1", "A"), ("h1", "B")]
        "u" "t" 512 50 =
      .ok [{ chunk_id := none, source_url := "u", page_title := "t", heading_context := "A",
             text_content := [0], token_count := 1, position_in_page := 0 },
           { chunk_id := none, source_url := "u", page_title := "t", heading_context := "B",
             text_content := [0], token_count := 1, position_in_page := 1 }] := by
  decide

/-- C3 (amended): with a non-empty headings list the token window does slide
independently within each heading-delimited section (`start` is reset to 0
per section, and every chunk's `token_count` stays within the bound), but the
chunk position counter is page-global: it is never reset between sections, so
the chunks of a page carry `position_in_page = 0, 1, 2, …` in emission order
across all its sections; only the first chunk of the page has position 0. -/
theorem c3_positions_page_global :
    ∀ (τ σ : Type) (enc : String → List τ) (dec : List τ → σ) (text : String)
      (headings : List (String × String)) (url title : String)
      (maxTokens overlapTokens : Nat),
      overlapTokens < maxTokens →
      ∀ cs, chunk_text enc dec text headings url title maxTokens overlapTokens = .ok cs →
        ∀ i (hi : i < cs.length),
          (cs[i]).position_in_page = i ∧ (cs[i]).token_count ≤ maxTokens := by
  intro τ σ enc dec text headings url title maxTokens overlapTokens hlt cs hok
  by_cases hstrip : pyStripChars text.toList = []
  · rw [chunk_text, if_pos hstrip] at hok
    cases hok
  · cases headings with
    | nil =>
        rw [chunk_text_noHeadings_closed enc dec text url title maxTokens overlapTokens hlt
          hstrip] at hok
        simp only [PyOutcome.ok.injEq] at hok
        subst hok
        intro i hi
        have := seqPos_windowMap dec url title "No heading" (enc text) maxTokens
          (maxTokens - overlapTokens) (numWindows (enc text).length (maxTokens - overlapTokens))
          0 i (by simpa using hi)
        simpa using this
    | cons h0 hrest =>
        rw [chunk_text, if_neg hstrip] at hok
        rw [if_neg (by simp : ¬ ((h0 :: hrest).isEmpty = true))] at hok
        simp only [] at hok
        split at hok
        · cases hok
        · simp only [PyOutcome.ok.injEq] at hok
          subst hok
          rename_i cs' heq
          intro i hi
          have := chunkSections_positions enc dec url title maxTokens overlapTokens text.toList
            hlt _ 0 cs' heq i hi
          simpa using this

/-- Witness for C3 (amended) at a concrete input: the second chunk of the
two-section page carries page-global position 1. -/
theorem c3_positions_page_global_witness :
    (([{ chunk_id := none, source_url := "u", page_title := "t", heading_context := "A",
          text_content := [0], token_count := 1, position_in_page := 0 },
        { chunk_id := none, source_url := "u", page_title := "t", heading_context := "B",
          text_content := [0], token_count := 1, position_in_page := 1 }] :
        List (TextChunk (List Nat)))[1]).position_in_page = 1 :=
  (c3_positions_page_global Nat (List Nat) encIota (fun l => l) "A p B q"
    [("h1", "A"), ("h1", "B")] "u" "t" 512 50 (by omega)
    [{ chunk_id := none, source_url := "u", page_title := "t", heading_context := "A",
       text_content := [0], token_count := 1, position_in_page := 0 },
     { chunk_id := none, source_url := "u", page_title := "t", heading_context := "B",
       text_content := [0], token_count := 1, position_in_page := 1 }]
    (by decide) 1 (by decide)).1

/-- C10: when the first heading a page yields is an H2 (no H1 yet), that H2
text alone becomes the hierarchy (its section's heading context is the bare
H2 text), and a further H2 arriving while the hierarchy holds that single
element is appended, giving a context `first-H2 > second-H2` with no H1
component; shown both for `buildSectionsAux` in general and on a concrete
`chunk_text` run. -/
theorem c10_h2_first_hierarchy :
    (∀ (textChars : List Char) (a b : String) (p q : Nat),
        pyFind a.toList textChars = some p → pyFind b.toList textChars = some q →
        buildSectionsAux textChars [("h2", a), ("h2", b)] [] =
          [{ position := p, heading := a, text := a },
           { position := q, heading := a ++ " > " ++ b, text := b }]) ∧
    chunk_text encIota (fun l : List Nat => l) "T hello H2A mid H2B tail"
        [("h2", "H2A"), ("h2", "H2B")] "u" "t" 512 50 =
      .ok [{ chunk_id := none, source_url := "u", page_title := "t",
             heading_context := "H2A", text_content := [0, 1, 2], token_count := 3,
             position_in_page := 0 },
           { chunk_id := none, source_url := "u", page_title := "t",
             heading_context := "H2A > H2B", text_content := [0, 1, 2, 3], token_count := 4,
             position_in_page := 1 }] := by
  constructor
  · intro textChars a b p q hp hq
    have h1 : updateHierarchy [] "h2" a = [a] := by
      rw [updateHierarchy, if_neg (by decide), if_pos rfl]
    have h2 : updateHierarchy [a] "h2" b = [a, b] := by
      rw [updateHierarchy, if_neg (by decide), if_pos rfl]
    simp only [buildSectionsAux, h1, h2, joinHeadings, hp, hq]
  · decide

/-- Witness for C10 at a concrete input. -/
theorem c10_h2_first_hierarchy_witness :
    buildSectionsAux "xAyB".toList [("h2", "A"), ("h2", "B")] [] =
      [{ position := 1, heading := "A", text := "A" },
       { position := 3, heading := "A" ++ " > " ++ "B", text := "B" }] :=
  c10_h2_first_hierarchy.1 "xAyB".toList "A" "B" 1 3 (by decide) (by decide)

/-- C4: `retrieve_textbook_content` is a total function of its oracles — it
never raises outward.  Its result is either `(results, none)` on success, or
`([], some message)` when the embedding call or the vector search fails, with
the exception text wrapped in `"Retrieval failed: …"`. -/
theorem c4_retrieve_never_raises :
    (∀ (β ε : Type) (embedApi : String → Except String β)
        (queryPoints : β → Nat → Except String (List (QdrantPoint ε)))
        (query : String) (k : Int),
        (retrieve_textbook_content embedApi queryPoints query k).2 = none ∨
        ((retrieve_textbook_content embedApi queryPoints query k).1 = [] ∧
          ∃ msg, (retrieve_textbook_content embedApi queryPoints query k).2 = some msg)) ∧
    (∀ (β ε : Type) (embedApi : String → Except String β)
        (queryPoints : β → Nat → Except String (List (QdrantPoint ε)))
        (query : String) (k : Int) (e : String),
        embedApi query = .error e →
        retrieve_textbook_content embedApi queryPoints query k =
          ([], some ("Retrieval failed: " ++ ("Cohere embedding generation failed: " ++ e)))) ∧
    (∀ (β ε : Type) (embedApi : String → Except String β)
        (queryPoints : β → Nat → Except String (List (QdrantPoint ε)))
        (query : String) (k : Int) (emb : β) (rs : List (RetrievalResult ε)),
        embedApi query = .ok emb →
        search_qdrant queryPoints emb (max 1 (min k 10)).toNat = .ok rs →
        retrieve_textbook_content embedApi queryPoints query k = (rs, none)) := by
  refine ⟨?_, ?_, ?_⟩
  · intro β ε embedApi queryPoints query k
    rcases h1 : generate_query_embedding embedApi query with e | emb
    · exact Or.inr (by simp [retrieve_textbook_content, h1])
    · rcases h2 : search_qdrant queryPoints emb (max 1 (min k 10)).toNat with e | rs
      · exact Or.inr (by simp [retrieve_textbook_content, h1, h2])
      · exact Or.inl (by simp [retrieve_textbook_content, h1, h2])
  · intro β ε embedApi queryPoints query k e he
    simp [retrieve_textbook_content, generate_query_embedding, he]
  · intro β ε embedApi queryPoints query k emb rs he hs
    simp [retrieve_textbook_content, generate_query_embedding, he, hs]

/-- Witness for C4 at concrete inputs: a failing embedding client yields the
empty-results/error pair, and succeeding oracles yield `error = none`. -/
theorem c4_retrieve_never_raises_witness :
    retrieve_textbook_content (fun _ => Except.error "boom")
        (fun (_ : Unit) (_ : Nat) => Except.ok ([] : List (QdrantPoint Unit))) "q" 3 =
      ([], some ("Retrieval failed: " ++ ("Cohere embedding generation failed: " ++ "boom"))) ∧
    retrieve_textbook_content (fun _ => Except.ok ())
        (fun (_ : Unit) (_ : Nat) => Except.ok ([] : List (QdrantPoint Unit))) "q" 3 =
      ([], none) :=
  ⟨c4_retrieve_never_raises.2.1 Unit Unit (fun _ => Except.error "boom")
      (fun _ _ => Except.ok []) "q" 3 "boom" rfl,
   c4_retrieve_never_raises.2.2 Unit Unit (fun _ => Except.ok ())
      (fun _ _ => Except.ok []) "q" 3 () [] rfl rfl⟩

theorem dedupByUrl_urls_nodup :
    ∀ (ms : List (String × String)) (seen : List String),
      ((dedupByUrl ms seen).map Citation.url).Nodup ∧
      ∀ c ∈ dedupByUrl ms seen, ¬ c.url ∈ seen := by
  intro ms
  induction ms with
  | nil => intro seen; simp [dedupByUrl]
  | cons p rest ih =>
      obtain ⟨t, u⟩ := p
      intro seen
      simp only [dedupByUrl]
      by_cases hu : u ∈ seen
      · rw [if_pos hu]
        exact (ih seen)
      · rw [if_neg hu]
        refine ⟨?_, ?_⟩
        · simp only [List.map_cons]
          refine List.nodup_cons.mpr ⟨?_, (ih (u :: seen)).1⟩
          intro hmem
          rcases List.mem_map.mp hmem with ⟨c, hc, hcu⟩
          exact (ih (u :: seen)).2 c hc (by rw [hcu]; exact List.mem_cons_self u seen)
        · intro c hc
          rcases List.mem_cons.mp hc with hc1 | hc2
          · rw [hc1]
            exact hu
          · intro habs
            exact (ih (u :: seen)).2 c hc2 (List.mem_cons_of_mem u habs)

theorem dedupByUrl_sublist :
    ∀ (ms : List (String × String)) (seen : List String),
      ((dedupByUrl ms seen).map (fun c => (c.title, c.url))).Sublist ms := by
  intro ms
  induction ms with
  | nil => intro seen; simp [dedupByUrl]
  | cons p rest ih =>
      obtain ⟨t, u⟩ := p
      intro seen
      simp only [dedupByUrl]
      by_cases hu : u ∈ seen
      · rw [if_pos hu]
        exact (ih seen).cons (t, u)
      · rw [if_neg hu]
        simpa using (ih (u :: seen)).cons₂ (t, u)

/-- C9: `extract_citations` parses `(title, url)` pairs from Markdown links,
deduplicates by URL keeping the first occurrence, caps the result at 10, and
preserves first-occurrence order (the output is a sublist of the match list);
the given doubled-link input yields exactly `(Intro, https://x/a)` then
`(Deep Dive, https://x/b)`. -/
theorem c9_extract_citations_spec :
    (extract_citations
        "A [Intro](https://x/a) B [Intro](https://x/a) C [Deep Dive](https://x/b)" =
      [{ title := "Intro", url := "https://x/a" },
       { title := "Deep Dive", url := "https://x/b" }]) ∧
    (∀ s : String, (extract_citations s).length ≤ 10) ∧
    (∀ s : String, ((extract_citations s).map Citation.url).Nodup) ∧
    (∀ s : String,
      ((extract_citations s).map (fun c => (c.title, c.url))).Sublist
        (findMarkdownLinks s.toList.length s.toList)) := by
  refine ⟨by decide, ?_, ?_, ?_⟩
  · intro s
    unfold extract_citations
    exact List.length_take_le 10 _
  · intro s
    unfold extract_citations
    rw [List.map_take]
    exact List.Nodup.sublist (List.take_sublist 10 _)
      (dedupByUrl_urls_nodup (findMarkdownLinks s.toList.length s.toList) []).1
  · intro s
    unfold extract_citations
    rw [List.map_take]
    exact List.Sublist.trans (List.take_sublist 10 _)
      (dedupByUrl_sublist (findMarkdownLinks s.toList.length s.toList) [])

/-- C6 counterexample: with duplicated retrieved URLs (two chunks of the same
page), every top-2 URL is relevant yet `precision@2 = 1/2`, not `1.0`: the
intersection is of sets, so duplicates are collapsed before dividing by `k`. -/
theorem c6_duplicate_retrieved_counterexample :
    calculate_precision_at_k ["a", "a"] ["a"] 2 = 1 / 2 ∧
    (∀ u ∈ pySlice ["a", "a"] 0 2, u ∈ ["a"]) ∧
    ¬ calculate_precision_at_k ["a", "a"] ["a"] 2 = 1 ∧
    (0 : Int) < 2 := by
  have hcount : ((pySlice ["a", "a"] 0 2).dedup.filter
      (fun u => u ∈ (["a"] : List String))).length = 1 := by decide
  refine ⟨?_, by decide, ?_, by omega⟩
  · unfold calculate_precision_at_k
    rw [if_pos (by omega), hcount]
    norm_num
  · unfold calculate_precision_at_k
    rw [if_pos (by omega), hcount]
    norm_num

theorem pySlice_front_length_le {α : Type} (l : List α) (k : Int) (hk : 0 ≤ k) :
    (pySlice l 0 k).length ≤ k.toNat := by
  unfold pySlice
  have h0 : ¬ ((0 : Int) < 0) := by omega
  have hkneg : ¬ (k < 0) := by omega
  simp only [if_neg h0, if_neg hkneg]
  have : (min (0 : Int) (l.length : Int)).toNat = 0 := by
    have : min (0 : Int) (l.length : Int) = 0 := min_eq_left (by omega)
    rw [this]
    rfl
  rw [this]
  have hmin : (min k (l.length : Int)).toNat ≤ k.toNat := by
    have := min_le_left k (l.length : Int)
    omega
  calc ((l.drop 0).take ((min k (l.length : Int)).toNat - 0)).length
      ≤ (min k (l.length : Int)).toNat - 0 := by
        rw [List.length_take]
        omega
    _ ≤ k.toNat := by omega

/-- C6 (amended): `calculate_precision_at_k` always lands in `[0, 1]` for
`k > 0`, and returns exactly `1.0` when the top-k retrieved URLs are `k`
pairwise-distinct URLs all contained in the relevant list.  (As stated the
claim fails when the top-k contains duplicates or fewer than `k` URLs.) -/
theorem c6_precision_at_k_range :
    (∀ (retrieved_urls relevant_urls : List String) (k : Int), 0 < k →
        0 ≤ calculate_precision_at_k retrieved_urls relevant_urls k ∧
        calculate_precision_at_k retrieved_urls relevant_urls k ≤ 1) ∧
    (∀ (retrieved_urls relevant_urls : List String) (k : Int), 0 < k →
        (pySlice retrieved_urls 0 k).Nodup →
        (pySlice retrieved_urls 0 k).length = k.toNat →
        (∀ u ∈ pySlice retrieved_urls 0 k, u ∈ relevant_urls) →
        calculate_precision_at_k retrieved_urls relevant_urls k = 1) := by
  constructor
  · intro retrieved relevant k hk
    unfold calculate_precision_at_k
    rw [if_pos hk]
    have hkq : (0 : ℚ) < (k : ℚ) := by exact_mod_cast hk
    constructor
    · exact div_nonneg (by positivity) hkq.le
    · rw [div_le_one hkq]
      have hcount : ((pySlice retrieved 0 k).dedup.filter
          (fun u => u ∈ relevant)).length ≤ k.toNat := by
        calc ((pySlice retrieved 0 k).dedup.filter (fun u => u ∈ relevant)).length
            ≤ (pySlice retrieved 0 k).dedup.length := List.length_filter_le _ _
          _ ≤ (pySlice retrieved 0 k).length := (List.dedup_sublist _).length_le
          _ ≤ k.toNat := pySlice_front_length_le retrieved k hk.le
      have hcast : ((k.toNat : Nat) : ℚ) = (k : ℚ) := by
        have := Int.toNat_of_nonneg hk.le
        exact_mod_cast congrArg (fun z : Int => (z : ℚ)) this
      calc (((pySlice retrieved 0 k).dedup.filter (fun u => u ∈ relevant)).length : ℚ)
          ≤ ((k.toNat : Nat) : ℚ) := by exact_mod_cast hcount
        _ = (k : ℚ) := hcast
  · intro retrieved relevant k hk hnd hlen hall
    unfold calculate_precision_at_k
    rw [if_pos hk]
    rw [List.dedup_eq_self.mpr hnd]
    rw [List.filter_eq_self.mpr (fun u hu => by simpa using hall u hu)]
    rw [hlen]
    have hcast : ((k.toNat : Nat) : ℚ) = (k : ℚ) := by
      have := Int.toNat_of_nonneg hk.le
      exact_mod_cast congrArg (fun z : Int => (z : ℚ)) this
    rw [hcast]
    exact div_self (by exact_mod_cast hk.ne.symm)

/-- Witness for C6 at a concrete input: two distinct relevant URLs in the
top-2 give precision exactly 1. -/
theorem c6_precision_at_k_range_witness :
    calculate_precision_at_k ["a", "b"] ["a", "b", "c"] 2 = 1 :=
  c6_precision_at_k_range.2 ["a", "b"] ["a", "b", "c"] 2 (by omega) (by decide)
    (by decide) (by decide)

/-- C8 counterexample: a batch whose FIRST embedding has 1024 dimensions but
whose second has only 1 dimension succeeds — only `embeddings[0]` is checked,
so "each vector is checked, not only the first" is false of the code. -/
theorem c8_only_first_vector_checked_counterexample :
    generate_embeddings
        (fun _ : List String => Except.ok [List.replicate 1024 (), [()]])
        [{ chunk_id := none, source_url := "u", page_title := "t", heading_context := "h",
           text_content := "txt", token_count := 1, position_in_page := 0 }] =
      .ok [List.replicate 1024 (), [()]] ∧
    ¬ ([()] : List Unit).length = 1024 := by
  refine ⟨rfl, by decide⟩

/-- C8 (amended): batches over 96 chunks fail with the batch-size error, and
for a successful API call only the first returned vector's dimension is
checked: the call fails iff that first vector is not 1024-dimensional. -/
theorem c8_generate_embeddings_checks :
    (∀ (σ ε : Type) (embedApi : List σ → Except String (List (List ε)))
        (chunks : List (TextChunk σ)), 96 < chunks.length →
        generate_embeddings embedApi chunks =
          .error ("Batch size " ++ toString chunks.length ++ " exceeds maximum of 96")) ∧
    (∀ (σ ε : Type) (embedApi : List σ → Except String (List (List ε)))
        (chunks : List (TextChunk σ)) (e0 : List ε) (rest : List (List ε)),
        chunks.length ≤ 96 → chunks.length ≠ 0 →
        embedApi (chunks.map (fun c => c.text_content)) = .ok (e0 :: rest) →
        ((e0.length ≠ 1024 → generate_embeddings embedApi chunks =
            .error ("Expected 1024 dimensions, got " ++ toString e0.length)) ∧
         (e0.length = 1024 → generate_embeddings embedApi chunks = .ok (e0 :: rest)))) := by
  constructor
  · intro σ ε embedApi chunks hlen
    unfold generate_embeddings
    rw [if_pos hlen]
  · intro σ ε embedApi chunks e0 rest hle hne hapi
    unfold generate_embeddings
    rw [if_neg (by omega), if_neg hne, hapi]
    constructor
    · intro hdim
      simp only [if_pos hdim]
    · intro hdim
      simp only [hdim]
      simp

/-- Witness for C8 at a concrete input: a batch of 97 chunks is rejected. -/
theorem c8_generate_embeddings_checks_witness :
    generate_embeddings (fun _ : List String => Except.ok ([] : List (List Unit)))
        (List.replicate 97
          { chunk_id := none, source_url := "u", page_title := "t", heading_context := "h",
            text_content := "txt", token_count := 1, position_in_page := 0 }) =
      .error ("Batch size " ++
        toString (List.replicate 97
          ({ chunk_id := none, source_url := "u", page_title := "t", heading_context := "h",
             text_content := "txt", token_count := 1, position_in_page := 0 } :
            TextChunk String)).length ++ " exceeds maximum of 96") :=
  c8_generate_embeddings_checks.1 String Unit _ _ (by simp)

/-- C5 counterexample: a `/chat` request with `message = ""` is rejected by
the Pydantic `min_length=1` constraint before `chat_endpoint`'s own
empty-message check can run, so it receives FastAPI's 422 validation
response, not the claimed 400 with `error = "validation_error"`. -/
theorem c5_empty_message_schema_reject_counterexample :
    chat_endpoint (fun _ => Except.ok "answer") "id0" "" none =
      ChatOutcome.schemaReject 422 := by
  decide

/-- C5 (amended): `message = ""` fails the request-model validation and gets
HTTP 422; the handler's 400 `validation_error` response is reachable only by
messages that pass the schema (length ≥ 1) but strip to nothing, e.g. `" "`. -/
theorem c5_empty_and_whitespace_message :
    (∀ (runAgent : String → Except String String) (freshId : String)
        (context : Option String),
        chat_endpoint runAgent freshId "" context = ChatOutcome.schemaReject 422) ∧
    (∀ (runAgent : String → Except String String) (freshId : String) (message : String)
        (context : Option String),
        validChatRequest message context = true →
        pyStripChars message.toList = [] →
        chat_endpoint runAgent freshId message context =
          ChatOutcome.errorResp 400
            { error := "validation_error",
              message := "Message field cannot be empty or whitespace only",
              retryable := false, error_id := none }) := by
  constructor
  · intro runAgent freshId context
    have hv : validChatRequest "" context = false := by
      unfold validChatRequest
      simp
    unfold chat_endpoint
    rw [hv]
    simp
  · intro runAgent freshId message context hv hstrip
    unfold chat_endpoint
    rw [hv]
    rw [if_neg (by simp), if_pos hstrip]

/-- Witness for C5 (amended) at a concrete input: `message = " "` passes the
schema and receives the 400 `validation_error` body. -/
theorem c5_empty_and_whitespace_message_witness :
    chat_endpoint (fun _ => Except.ok "answer") "id0" " " none =
      ChatOutcome.errorResp 400
        { error := "validation_error",
          message := "Message field cannot be empty or whitespace only",
          retryable := false, error_id := none } :=
  c5_empty_and_whitespace_message.2 (fun _ => Except.ok "answer") "id0" " " none
    (by decide) (by decide)

theorem charListLt_irrefl : ∀ a : List Char, charListLt a a = false := by
  intro a
  induction a with
  | nil => rfl
  | cons x s ih =>
      simp only [charListLt, lt_irrefl, if_false, ih]

theorem charListLt_trans :
    ∀ a b c : List Char, charListLt a b = true → charListLt b c = true →
      charListLt a c = true := by
  intro a
  induction a with
  | nil =>
      intro b c h1 h2
      cases b with
      | nil => exact h2
      | cons y t =>
          cases c with
          | nil => simp [charListLt] at h2
          | cons z u => rfl
  | cons x s ih =>
      intro b c h1 h2
      cases b with
      | nil => simp [charListLt] at h1
      | cons y t =>
          cases c with
          | nil => simp [charListLt] at h2
          | cons z u =>
              simp only [charListLt] at h1 h2 ⊢
              by_cases hxy : x < y
              · by_cases hyz : y < z
                · rw [if_pos (lt_trans hxy hyz)]
                · rw [if_neg hyz] at h2
                  by_cases hzy : z < y
                  · simp [hzy] at h2
                  · have : y = z := le_antisymm (not_lt.mp hzy) (not_lt.mp hyz)
                    rw [if_pos (this ▸ hxy)]
              · rw [if_neg hxy] at h1
                by_cases hyx : y < x
                · simp [hyx] at h1
                · have hxeq : x = y := le_antisymm (not_lt.mp hyx) (not_lt.mp hxy)
                  by_cases hyz : y < z
                  · rw [if_pos (hxeq ▸ hyz)]
                  · rw [if_neg hyz] at h2
                    by_cases hzy : z < y
                    · simp [hzy] at h2
                    · have hyeq : y = z := le_antisymm (not_lt.mp hzy) (not_lt.mp hyz)
                      rw [if_neg (by rw [hxeq, hyeq] at hxy ⊢; exact hxy),
                        if_neg (by rw [hxeq, hyeq] at hyx ⊢; exact hyx)]
                      exact ih t u (by simpa [hyx] using h1) (by simpa [hzy] using h2)

theorem charListLt_of_ne :
    ∀ a b : List Char, a ≠ b → charListLt a b = true ∨ charListLt b a = true := by
  intro a
  induction a with
  | nil =>
      intro b hne
      cases b with
      | nil => exact absurd rfl hne
      | cons y t => exact Or.inl rfl
  | cons x s ih =>
      intro b hne
      cases b with
      | nil => exact Or.inr rfl
      | cons y t =>
          by_cases hxy : x < y
          · exact Or.inl (by simp [charListLt, hxy])
          · by_cases hyx : y < x
            · exact Or.inr (by simp [charListLt, hyx])
            · have hxeq : x = y := le_antisymm (not_lt.mp hyx) (not_lt.mp hxy)
              subst hxeq
              have hst : s ≠ t := fun h => hne (by rw [h])
              rcases ih t hst with h | h
              · exact Or.inl (by simp [charListLt, lt_irrefl, h])
              · exact Or.inr (by simp [charListLt, lt_irrefl, h])

theorem strLt_irrefl (a : String) : strLt a a = false := charListLt_irrefl a.toList

theorem strLt_trans {a b c : String} (h1 : strLt a b = true) (h2 : strLt b c = true) :
    strLt a c = true := charListLt_trans a.toList b.toList c.toList h1 h2

theorem strLt_of_ne {a b : String} (hne : a ≠ b) :
    strLt a b = true ∨ strLt b a = true := by
  refine charListLt_of_ne a.toList b.toList (fun h => hne ?_)
  have ha : String.mk a.toList = a := rfl
  have hb : String.mk b.toList = b := rfl
  rw [← ha, ← hb, h]

theorem mem_insertSortedDedup (x y : String) :
    ∀ l : List String, y ∈ insertSortedDedup x l ↔ y = x ∨ y ∈ l := by
  intro l
  induction l with
  | nil => simp [insertSortedDedup]
  | cons z zs ih =>
      simp only [insertSortedDedup]
      by_cases hxz : x = z
      · rw [if_pos hxz]
        subst hxz
        simp only [List.mem_cons]
        tauto
      · rw [if_neg hxz]
        by_cases hlt : strLt x z
        · rw [if_pos hlt]
          simp only [List.mem_cons]
          try tauto
        · rw [if_neg hlt]
          simp only [List.mem_cons, ih]
          try tauto

theorem pairwise_insertSortedDedup (x : String) :
    ∀ l : List String, l.Pairwise (fun a b => strLt a b = true) →
      (insertSortedDedup x l).Pairwise (fun a b => strLt a b = true) := by
  intro l
  induction l with
  | nil => intro _; simp [insertSortedDedup]
  | cons z zs ih =>
      intro hp
      rcases List.pairwise_cons.mp hp with ⟨hz, hzs⟩
      simp only [insertSortedDedup]
      by_cases hxz : x = z
      · rw [if_pos hxz]
        exact hp
      · rw [if_neg hxz]
        by_cases hlt : strLt x z
        · rw [if_pos hlt]
          refine List.pairwise_cons.mpr ⟨?_, hp⟩
          intro y hy
          rcases List.mem_cons.mp hy with h | h
          · rw [h]
            exact hlt
          · exact strLt_trans hlt (hz y h)
        · rw [if_neg hlt]
          have hzx : strLt z x = true := by
            rcases strLt_of_ne hxz with h | h
            · exact absurd h (by simpa using hlt)
            · exact h
          refine List.pairwise_cons.mpr ⟨?_, ih hzs⟩
          intro y hy
          rcases (mem_insertSortedDedup x y zs).mp hy with h | h
          · rw [h]
            exact hzx
          · exact hz y h

theorem pySortedSet_go :
    ∀ (l acc : List String), acc.Pairwise (fun a b => strLt a b = true) →
      (l.foldl (fun acc x => insertSortedDedup x acc) acc).Pairwise
          (fun a b => strLt a b = true) ∧
      (∀ y, y ∈ l.foldl (fun acc x => insertSortedDedup x acc) acc ↔ y ∈ l ∨ y ∈ acc) := by
  intro l
  induction l with
  | nil => intro acc hacc; simpa using hacc
  | cons x xs ih =>
      intro acc hacc
      simp only [List.foldl_cons]
      rcases ih (insertSortedDedup x acc) (pairwise_insertSortedDedup x acc hacc) with
        ⟨hpw, hmem⟩
      refine ⟨hpw, ?_⟩
      intro y
      rw [hmem y, mem_insertSortedDedup]
      simp only [List.mem_cons]
      tauto

theorem pySortedSet_pairwise (l : List String) :
    (pySortedSet l).Pairwise (fun a b => strLt a b = true) :=
  (pySortedSet_go l [] (by simp)).1

theorem mem_pySortedSet (l : List String) (y : String) :
    y ∈ pySortedSet l ↔ y ∈ l := by
  have := (pySortedSet_go l [] (by simp)).2 y
  simpa using this

theorem pySortedSet_nodup (l : List String) : (pySortedSet l).Nodup := by
  refine List.Pairwise.imp ?_ (pySortedSet_pairwise l)
  intro a b hab heq
  rw [heq] at hab
  rw [strLt_irrefl b] at hab
  exact Bool.false_ne_true hab

theorem pyStartsWith_nil_right : ∀ s : List Char, pyStartsWith s [] = true := by
  intro s
  cases s <;> rfl

theorem pyStartsWith_takeWhile (p : Char → Bool) :
    ∀ (b l : List Char), pyStartsWith l b = true → (∀ c ∈ b, p c = true) →
      pyStartsWith (l.takeWhile p) b = true := by
  intro b
  induction b with
  | nil => intro l _ _; exact pyStartsWith_nil_right _
  | cons c b' ih =>
      intro l h hp
      cases l with
      | nil => simp [pyStartsWith] at h
      | cons a l' =>
          simp only [pyStartsWith, Bool.and_eq_true, decide_eq_true_eq] at h
          rcases h with ⟨hac, hrest⟩
          rw [List.takeWhile_cons, if_pos (by rw [hac]; exact hp c (List.mem_cons_self c b'))]
          simp only [pyStartsWith, Bool.and_eq_true, decide_eq_true_eq]
          exact ⟨hac, ih l' hrest (fun d hd => hp d (List.mem_cons_of_mem c hd))⟩

theorem cleanUrl_keeps_base (base : String) (hclean : BaseClean base) (l : String)
    (h : pyStartsWith l.toList base.toList = true) :
    pyStartsWith (cleanUrl l).toList base.toList = true := by
  show pyStartsWith (pySplitHead '?' (pySplitHead '#' l.toList)) base.toList = true
  refine pyStartsWith_takeWhile _ base.toList _ ?_ ?_
  · refine pyStartsWith_takeWhile _ base.toList l.toList h ?_
    intro c hc
    simpa using (hclean c hc).1
  · intro c hc
    simpa using (hclean c hc).2

theorem pyStartsWith_refl : ∀ s : List Char, pyStartsWith s s = true := by
  intro s
  induction s with
  | nil => rfl
  | cons a t ih => simp [pyStartsWith, ih]

/-- Soundness of the crawl fallback: whenever the worklist loop terminates,
its result is strictly sorted, duplicate-free, and — provided `base_url`
contains no `#` or `?` — every returned URL still carries the `base_url`
prefix. -/
theorem crawlLoop_sound (fetchLinks : String → Option (List String)) (base_url : String)
    (hclean : BaseClean base_url) :
    ∀ (fuel : Nat) (toVisit visited urls res : List String),
      (∀ u ∈ toVisit, pyStartsWith u.toList base_url.toList = true) →
      (∀ u ∈ urls, pyStartsWith u.toList base_url.toList = true) →
      crawlLoop fetchLinks base_url fuel toVisit visited urls = some res →
      res.Pairwise (fun a b => strLt a b = true) ∧ res.Nodup ∧
        (∀ u ∈ res, pyStartsWith u.toList base_url.toList = true) := by
  intro fuel
  induction fuel with
  | zero =>
      intro toVisit visited urls res htv hurls hres
      cases toVisit with
      | nil =>
          simp only [crawlLoop, Option.some.injEq] at hres
          subst hres
          exact ⟨pySortedSet_pairwise urls, pySortedSet_nodup urls,
            fun u hu => hurls u ((mem_pySortedSet urls u).mp hu)⟩
      | cons u rest => simp [crawlLoop] at hres
  | succ n ih =>
      intro toVisit visited urls res htv hurls hres
      cases toVisit with
      | nil =>
          simp only [crawlLoop, Option.some.injEq] at hres
          subst hres
          exact ⟨pySortedSet_pairwise urls, pySortedSet_nodup urls,
            fun u hu => hurls u ((mem_pySortedSet urls u).mp hu)⟩
      | cons u rest =>
          simp only [crawlLoop] at hres
          split at hres
          · exact ih rest visited urls res
              (fun v hv => htv v (List.mem_cons_of_mem u hv)) hurls hres
          · rcases hf : fetchLinks u with _ | links
            · rw [hf] at hres
              simp only [] at hres
              exact ih rest (u :: visited) urls res
                (fun v hv => htv v (List.mem_cons_of_mem u hv)) hurls hres
            · rw [hf] at hres
              simp only [] at hres
              refine ih _ (u :: visited) (urls ++ [u]) res ?_ ?_ hres
              · intro v hv
                rcases List.mem_append.mp hv with hv1 | hv2
                · exact htv v (List.mem_cons_of_mem u hv1)
                · rcases List.mem_filterMap.mp hv2 with ⟨l, _, hl2⟩
                  by_cases hcond : (pyStartsWith l.toList base_url.toList &&
                      decide (l ∉ u :: visited)) = true
                  · rw [if_pos hcond] at hl2
                    have hsw : pyStartsWith l.toList base_url.toList = true := by
                      cases h1 : pyStartsWith l.toList base_url.toList
                      · rw [h1] at hcond
                        simp at hcond
                      · rfl
                    have hv' : v = cleanUrl l := by
                      simpa using hl2.symm
                    rw [hv']
                    exact cleanUrl_keeps_base base_url hclean l hsw
                  · rw [if_neg hcond] at hl2
                    cases hl2
              · intro v hv
                rcases List.mem_append.mp hv with hv1 | hv2
                · exact hurls v hv1
                · have : v = u := by simpa using hv2
                  rw [this]
                  exact htv u (List.mem_cons_self u rest)

/-- C7 counterexample: `base_url = "http://a?b"` has an http scheme, yet the
link-crawl fallback strips the query string from a discovered link
(`http://a?b#x` → `http://a`) and returns `http://a`, which does not share
the `base_url` prefix. -/
theorem c7_discover_urls_counterexample :
    discover_urls none c7Fetch 5 "http://a?b" = .ok ["http://a", "http://a?b"] ∧
    pyStartsWith "http://a".toList "http://a?b".toList = false := by
  refine ⟨by decide, by decide⟩

/-- C7 (amended): for every `base_url` with an http(s) scheme that contains
no `#` and no `?` (every real site root), `discover_urls` returns a strictly
sorted, duplicate-free list of URLs all sharing the `base_url` prefix, on
both the sitemap path and the link-crawl fallback; a `base_url` without an
http(s) scheme fails with the invalid-URL `ValueError`. -/
theorem c7_discover_urls_sorted_dedup_shared_base :
    (∀ (sitemapLocs : Option (List String)) (fetchLinks : String → Option (List String))
        (fuel : Nat) (base_url : String) (res : List String),
        BaseClean base_url →
        discover_urls sitemapLocs fetchLinks fuel base_url = .ok res →
        res.Pairwise (fun a b => strLt a b = true) ∧ res.Nodup ∧
          (∀ u ∈ res, pyStartsWith u.toList base_url.toList = true)) ∧
    (∀ (sitemapLocs : Option (List String)) (fetchLinks : String → Option (List String))
        (fuel : Nat) (base_url : String),
        ¬ (pyStartsWith base_url.toList "http://".toList ||
           pyStartsWith base_url.toList "https://".toList) = true →
        discover_urls sitemapLocs fetchLinks fuel base_url =
          .exn ("Invalid base_url: " ++ base_url ++
            ". Must start with http:// or https://")) := by
  constructor
  · intro sitemapLocs fetchLinks fuel base_url res hclean hres
    unfold discover_urls at hres
    split at hres
    · cases hres
    · simp only [] at hres
      split at hres
      · rename_i hne
        simp only [PyOutcome.ok.injEq] at hres
        subst hres
        refine ⟨pySortedSet_pairwise _, pySortedSet_nodup _, ?_⟩
        intro u hu
        have hmem := (mem_pySortedSet _ u).mp hu
        rcases sitemapLocs with _ | locs
        · simp at hmem
        · simp only [List.mem_filter] at hmem
          simpa using hmem.2
      · split at hres
        · cases hres
        · rename_i urls hcr
          simp only [PyOutcome.ok.injEq] at hres
          subst hres
          refine crawlLoop_sound fetchLinks base_url hclean fuel [base_url] [] [] _ ?_
            (by simp) hcr
          intro v hv
          have : v = base_url := by simpa using hv
          rw [this]
          exact pyStartsWith_refl _
  · intro sitemapLocs fetchLinks fuel base_url hbad
    unfold discover_urls
    rw [if_pos hbad]

/-- Witness for C7 (amended) at a concrete input: a one-entry sitemap. -/
theorem c7_discover_urls_sorted_dedup_shared_base_witness :
    (["http://s/p"] : List String).Pairwise (fun a b => strLt a b = true) ∧
    (["http://s/p"] : List String).Nodup ∧
    (∀ u ∈ (["http://s/p"] : List String),
      pyStartsWith u.toList "http://s".toList = true) :=
  c7_discover_urls_sorted_dedup_shared_base.1 (some ["http://s/p"]) (fun _ => none) 0
    "http://s" ["http://s/p"] (by unfold BaseClean; decide) (by decide)

end BookHthon
